import Mathlib

/-!
Verification development for the BinaryRest/Rest source-transformation
pipeline (`src/Source/Fn/SWC.rs`, `src/Source/Fn/SWC/Watch.rs`,
`src/Source/Fn/SWC/Watch/Compile.rs`).

The Rust code is shallowly embedded: pure computations become Lean
functions, effectful steps (file read, the opaque SWC transform, the
output write) are driven by a per-job oracle recording the outcome and
duration of each step, and the result channel of the dispatcher is
modelled as a small labelled transition system.  Durations are natural
numbers of abstract time units.
-/

namespace Rest

/-- Tagged result of one job, mirroring Rust `Result<String, Error>` with
the error rendered as its human-readable description. -/
inductive Outcome where
  | ok (value : String)
  | err (msg : String)
deriving DecidableEq, Repr

def Outcome.isOk : Outcome → Bool
  | .ok _ => true
  | .err _ => false

/-- `CompilerConfig` from `src/Source/Fn/SWC.rs` lines 34-40. -/
structure CompilerConfig where
  target : String
  module : String
  strict : Bool
  emit_decorators_metadata : Bool
deriving DecidableEq, Repr

/-- `impl Default for CompilerConfig`, `src/Source/Fn/SWC.rs` lines 57-66. -/
instance : Inhabited CompilerConfig :=
  ⟨{ target := "es2022", module := "commonjs", strict := true,
     emit_decorators_metadata := true }⟩

/-- `CompilerOptions` from `src/Source/Fn/SWC.rs` lines 42-48. -/
structure CompilerOptions where
  entry : List (List String)
  separator : Char
  pattern : String
  config : CompilerConfig
deriving DecidableEq, Repr

/-- `CompilerMetrics` from `src/Source/Fn/SWC.rs` lines 50-55
(`files_processed`, `total_time`, `errors`); `Duration` is modelled as a
natural number of time units.  `#[derive(Default)]` zero-initialises all
three fields. -/
structure CompilerMetrics where
  files_processed : Nat
  total_time : Nat
  errors : Nat
deriving DecidableEq, Repr

instance : Inhabited CompilerMetrics := ⟨⟨0, 0, 0⟩⟩

/-- Rust `str::ends_with`: suffix test on the underlying character
sequence. -/
def ends_with (s pat : String) : Bool :=
  pat.data.isSuffixOf s.data

/-- Rust `[T]::join` over string components: `String.intercalate` of the
separator rendered as a one-character string. -/
def joinWith (sep : Char) (components : List String) : String :=
  String.intercalate sep.toString components

/-- The entry-resolution stage of `Compile::Fn`,
`src/Source/Fn/SWC/Watch/Compile.rs` lines 35-44: for each entry, take
its last component, keep the entry if that component ends with the
pattern, and map the kept entry to the join of its components
`entry[0..entry.len() - 1]` (all components except the last) with the
separator.  Rayon's indexed parallel `collect` preserves input order, so
a `List.filterMap` is a faithful embedding. -/
def resolveFiles (options : CompilerOptions) : List String :=
  options.entry.filterMap fun entry =>
    entry.getLast?.bind fun last =>
      if ends_with last options.pattern then
        some (joinWith options.separator entry.dropLast)
      else
        none

/-- Model of Rust `Path::file_name` (Unix separators): the characters of
the path after its last `'/'`. -/
def fileNameChars (p : String) : List Char :=
  (p.data.reverse.takeWhile (· ≠ '/')).reverse

/-- Model of Rust `Path::extension`: split the file name at its last
`'.'`; the extension is the part after that dot, except that a name with
no dot, or whose only dot starts the name (a hidden file such as
`".ts"`), has no extension. -/
def rustExtension (p : String) : Option String :=
  let rn := p.data.reverse.takeWhile (· ≠ '/')
  match rn.dropWhile (· ≠ '.') with
  | [] => none
  | _ :: stemRev =>
      if stemRev.isEmpty then none
      else some ⟨(rn.takeWhile (· ≠ '.')).reverse⟩

/-- Model of Rust `Path::with_extension(ext)`: replace the extension of
the final component (or append `"." ++ ext` if it has none); an empty
path (no file name) is returned unchanged. -/
def with_extension (p ext : String) : String :=
  match rustExtension p with
  | some e => ⟨p.data.take (p.data.length - e.length - 1)⟩ ++ "." ++ ext
  | none => if fileNameChars p = [] then p else p ++ "." ++ ext

/-- Per-job effect oracle: the outcome of this job's file read
(`fs::read_to_string`), of the opaque parse/transform/emit step (the
external SWC Transformer, out of scope per the spec), and of the output
write, together with the abstract time each of the latter two steps
takes.  The file read happens in the dispatch wrapper before
`compile_file` is entered, so its time lies outside the timed interval. -/
structure JobOracle where
  readResult : Outcome
  transformResult : Outcome
  transformTime : Nat
  writeResult : Option String
  writeTime : Nat
deriving DecidableEq, Repr

/-- `Compiler::compile_file`, `src/Source/Fn/SWC.rs` lines 80-133.  The
timer starts on entry (`start_time = Instant::now()`); parse, transform
and emit follow (fallible, modelled by the oracle's `transformResult`);
then the output write (fallible); `elapsed = start_time.elapsed()` is
taken only after the write, so it spans transform plus write time.  On
the success path one lock acquisition updates `files_processed` and
`total_time` together; error paths return before the metrics update, and
the `errors` field is written nowhere. -/
def compile_file (metrics : CompilerMetrics) (file : String) (o : JobOracle) :
    CompilerMetrics × Outcome :=
  match o.transformResult with
  | .err e => (metrics, .err e)
  | .ok _ =>
    match o.writeResult with
    | some e => (metrics, .err e)
    | none =>
      let elapsed := o.transformTime + o.writeTime
      ({ files_processed := metrics.files_processed + 1,
         total_time := metrics.total_time + elapsed,
         errors := metrics.errors },
       .ok (with_extension file "js"))

/-- One spawned per-file task of `Compile::Fn`,
`src/Source/Fn/SWC/Watch/Compile.rs` lines 46-74: read the file; on read
failure send `(file, Err)`; otherwise run `compile_file` and send
`(file, result)`.  Exactly one message carrying the file identity is sent
in every case. -/
def runJob (metrics : CompilerMetrics) (file : String) (o : JobOracle) :
    CompilerMetrics × (String × Outcome) :=
  match o.readResult with
  | .err e => (metrics, (file, .err e))
  | .ok _ =>
    let r := compile_file metrics file o
    (r.1, (file, r.2))

/-- The whole fan-out of `Compile::Fn` over a job list given in
completion order: thread the shared metrics through the per-job atomic
updates and gather the one message each task sends.  Metric updates
happen under a single mutex, so any interleaving is equivalent to some
sequential order of the per-job updates; the job list argument is that
order. -/
def runJobs (metrics : CompilerMetrics) (jobs : List (String × JobOracle)) :
    CompilerMetrics × List (String × Outcome) :=
  match jobs with
  | [] => (metrics, [])
  | (f, o) :: rest =>
    let step := runJob metrics f o
    let r := runJobs step.1 rest
    (r.1, step.2 :: r.2)

/-- `successful_compilations` tallied by the result-collecting loop,
`src/Source/Fn/SWC/Watch/Compile.rs` lines 81-95. -/
def successCount (msgs : List (String × Outcome)) : Nat :=
  (msgs.filter fun msg => msg.2.isOk).length

/-- `failed_compilations` tallied by the result-collecting loop,
`src/Source/Fn/SWC/Watch/Compile.rs` lines 81-95. -/
def failureCount (msgs : List (String × Outcome)) : Nat :=
  (msgs.filter fun msg => !msg.2.isOk).length

/-- A job's three effectful steps all succeed. -/
def jobSucceeds (o : JobOracle) : Bool :=
  o.readResult.isOk && o.transformResult.isOk && o.writeResult.isNone

/-- The duration `compile_file` records for a successful job: transform
time plus output-write time (the read happens before the timer starts). -/
def jobElapsed (o : JobOracle) : Nat :=
  o.transformTime + o.writeTime

/-- The message a job's task sends, as a function of that job alone. -/
def jobMsg (file : String) (o : JobOracle) : String × Outcome :=
  match o.readResult with
  | .err e => (file, .err e)
  | .ok _ =>
    match o.transformResult with
    | .err e => (file, .err e)
    | .ok _ =>
      match o.writeResult with
      | some e => (file, .err e)
      | none => (file, .ok (with_extension file "js"))

/-- One completed bulk pass of `Compile::Fn`
(`src/Source/Fn/SWC/Watch/Compile.rs` lines 29-104): resolve the entries,
run every job (in the given completion order, with oracle-supplied
effects), and return the final metrics, the collected messages, and the
collector's success/failure tallies.  `Compiler::new` starts from
`CompilerMetrics::default()`. -/
def bulkRun (oracle : String → JobOracle) (order : List String) :
    CompilerMetrics × List (String × Outcome) × Nat × Nat :=
  let r := runJobs default (order.map fun f => (f, oracle f))
  (r.1, r.2, successCount r.2, failureCount r.2)

/-- Number of jobs in a job list whose three steps all succeed. -/
def countSucc (jobs : List (String × JobOracle)) : Nat :=
  (jobs.filter fun j => jobSucceeds j.2).length

/-- Total duration recorded by the succeeding jobs of a job list. -/
def sumElapsed (jobs : List (String × JobOracle)) : Nat :=
  ((jobs.filter fun j => jobSucceeds j.2).map fun j => jobElapsed j.2).sum

lemma metrics_default_eq : (default : CompilerMetrics) = ⟨0, 0, 0⟩ := rfl

lemma runJob_snd (m : CompilerMetrics) (f : String) (o : JobOracle) :
    (runJob m f o).2 = jobMsg f o := by
  rcases o with ⟨r, t, tt, w, wt⟩
  cases r <;> cases t <;> cases w <;>
    simp [runJob, compile_file, jobMsg]

lemma runJob_fst (m : CompilerMetrics) (f : String) (o : JobOracle) :
    (runJob m f o).1 =
      if jobSucceeds o then
        { files_processed := m.files_processed + 1,
          total_time := m.total_time + jobElapsed o,
          errors := m.errors }
      else m := by
  rcases o with ⟨r, t, tt, w, wt⟩
  cases r <;> cases t <;> cases w <;>
    simp [runJob, compile_file, jobSucceeds, jobElapsed, Outcome.isOk]

lemma runJobs_snd (m : CompilerMetrics) (jobs : List (String × JobOracle)) :
    (runJobs m jobs).2 = jobs.map fun j => jobMsg j.1 j.2 := by
  induction jobs generalizing m with
  | nil => rfl
  | cons j rest ih =>
    rcases j with ⟨f, o⟩
    simp [runJobs, ih, runJob_snd]

lemma runJobs_fst (m : CompilerMetrics) (jobs : List (String × JobOracle)) :
    (runJobs m jobs).1 =
      { files_processed := m.files_processed + countSucc jobs,
        total_time := m.total_time + sumElapsed jobs,
        errors := m.errors } := by
  induction jobs generalizing m with
  | nil => simp [runJobs, countSucc, sumElapsed]
  | cons j rest ih =>
    rcases j with ⟨f, o⟩
    show (runJobs (runJob m f o).1 rest).1 = _
    rw [ih, runJob_fst]
    by_cases h : jobSucceeds o <;>
      (simp [countSucc, sumElapsed, h, List.filter_cons]; try omega)

lemma jobMsg_isOk (f : String) (o : JobOracle) :
    (jobMsg f o).2.isOk = jobSucceeds o := by
  rcases o with ⟨r, t, tt, w, wt⟩
  cases r <;> cases t <;> cases w <;>
    simp [jobMsg, jobSucceeds, Outcome.isOk]

lemma successCount_map (jobs : List (String × JobOracle)) :
    successCount (jobs.map fun j => jobMsg j.1 j.2) = countSucc jobs := by
  induction jobs with
  | nil => rfl
  | cons j rest ih =>
    simp [successCount, countSucc, List.filter_cons, jobMsg_isOk] at *
    by_cases h : jobSucceeds j.2 <;> simp [h, ih]

lemma successCount_add_failureCount (msgs : List (String × Outcome)) :
    successCount msgs + failureCount msgs = msgs.length := by
  induction msgs with
  | nil => rfl
  | cons msg rest ih =>
    simp [successCount, failureCount, List.filter_cons] at *
    by_cases h : msg.2.isOk = true <;> simp [h] <;> omega

/-- `std::path::MAIN_SEPARATOR` on the Unix targets the repository
builds for. -/
def mainSeparator : Char := '/'

/-- The `CompilerOptions` built with a single one-component entry.
`main` builds exactly this for the bulk pass
(`src/Source/Fn/SWC.rs` lines 154-159, entry `[[root]]`), and the watch
loop builds exactly this for each accepted event
(`src/Source/Fn/SWC/Watch.rs` lines 28-31, entry `[[changed path]]`,
remaining fields cloned from the bulk options). -/
def singleEntryOptions (p : String) (cfg : CompilerConfig) : CompilerOptions :=
  { entry := [[p]], separator := mainSeparator, pattern := ".ts", config := cfg }

/-- The job list the bulk pass hands to the dispatcher for root path
`root` (`src/Source/Fn/SWC.rs` lines 154-163). -/
def mainBulkJobs (root : String) (cfg : CompilerConfig) : List String :=
  resolveFiles (singleEntryOptions root cfg)

/-- The job list a watch-triggered dispatch hands to `Compile::Fn` for
changed path `p` (`src/Source/Fn/SWC/Watch.rs` lines 26-38). -/
def watchDispatchJobs (p : String) (cfg : CompilerConfig) : List String :=
  resolveFiles (singleEntryOptions p cfg)

lemma resolveFiles_single (c : String) (sep : Char) (pat : String)
    (cfg : CompilerConfig) :
    resolveFiles { entry := [[c]], separator := sep, pattern := pat, config := cfg } =
      if ends_with c pat then [""] else [] := by
  by_cases h : ends_with c pat <;>
    simp [resolveFiles, joinWith, h, String.intercalate]

/-- A path whose Rust extension is `"ts"` ends with the string `".ts"`:
the file name then reads `stem ++ "." ++ "ts"` with a nonempty stem. -/
lemma ends_with_of_rustExtension_ts (p : String)
    (h : rustExtension p = some "ts") : ends_with p ".ts" = true := by
  unfold rustExtension at h
  simp only [ne_eq, decide_not] at h
  rcases hdw : (p.data.reverse.takeWhile fun x => !decide (x = '/')).dropWhile
      (fun x => !decide (x = '.')) with _ | ⟨c, _ | ⟨s0, srest⟩⟩
  · rw [hdw] at h
    simp at h
  · simp [hdw] at h
  · simp only [hdw, List.isEmpty_cons, Bool.false_eq_true, if_false,
      Option.some.injEq] at h
    have hdata : ((p.data.reverse.takeWhile fun x => !decide (x = '/')).takeWhile
        (fun x => !decide (x = '.'))).reverse = ['t', 's'] := by
      have := congrArg String.data h
      simpa using this
    have htk : (p.data.reverse.takeWhile fun x => !decide (x = '/')).takeWhile
        (fun x => !decide (x = '.')) = ['s', 't'] := by
      have := congrArg List.reverse hdata
      simpa using this
    have hc : c = '.' := by
      have hhead := List.head?_dropWhile_not (fun x => !decide (x = '.'))
        (p.data.reverse.takeWhile fun x => !decide (x = '/'))
      rw [hdw] at hhead
      simpa using hhead
    have hsplit : (p.data.reverse.takeWhile fun x => !decide (x = '/')) =
        ['s', 't'] ++ '.' :: s0 :: srest := by
      have := List.takeWhile_append_dropWhile (p := fun x => !decide (x = '.'))
        (l := p.data.reverse.takeWhile fun x => !decide (x = '/'))
      rw [htk, hdw, hc] at this
      exact this.symm
    have hq := List.takeWhile_append_dropWhile (p := fun x => !decide (x = '/'))
      (l := p.data.reverse)
    rw [hsplit] at hq
    have hsuf : ['.', 't', 's'] <:+ p.data := by
      refine ⟨((s0 :: srest) ++ p.data.reverse.dropWhile fun x => !decide (x = '/')).reverse, ?_⟩
      have hr := congrArg List.reverse hq
      simp only [List.reverse_reverse] at hr
      have hlist : (((s0 :: srest) ++ p.data.reverse.dropWhile fun x => !decide (x = '/')).reverse)
            ++ ['.', 't', 's'] =
          (['s', 't'] ++ '.' :: s0 :: srest ++
            p.data.reverse.dropWhile fun x => !decide (x = '/')).reverse := by
        simp [List.reverse_append]
      rw [hlist, hr]
    have hts : (".ts" : String).data <:+ p.data := by
      rw [show (".ts" : String).data = ['.', 't', 's'] from rfl]
      exact hsuf
    simpa [ends_with] using (List.isSuffixOf_iff_suffix).mpr hts

/-- Claim C2 (code_bug evaluation): at the spec's concrete scenario —
entries `[["a","b","file.ts"], ["a","c","file.json"]]`, pattern `".ts"`,
separator `'/'` — the code resolves to `["a/b"]`, not the claimed
`["a/b/file.ts"]`: `entry[0..entry.len() - 1]` drops the matching file
name itself, so the resolved path can never name the TypeScript file the
surrounding function documents itself as compiling. -/
theorem c2_resolution_drops_file_name :
    resolveFiles
        { entry := [["a", "b", "file.ts"], ["a", "c", "file.json"]],
          separator := '/', pattern := ".ts", config := default } = ["a/b"] ∧
    resolveFiles
        { entry := [["a", "b", "file.ts"], ["a", "c", "file.json"]],
          separator := '/', pattern := ".ts", config := default } ≠
      ["a/b/file.ts"] := by
  constructor
  · rfl
  · decide

/-- Claim C3: entry resolution keeps exactly the entries whose last
component ends with the pattern, mapping each kept entry to the join of
its components except the last with the separator; non-matching entries
are silently dropped, never an error (resolution is a total function). -/
theorem c3_entry_resolution_contract (options : CompilerOptions) :
    resolveFiles options =
      (options.entry.filter fun entry =>
          match entry.getLast? with
          | some last => ends_with last options.pattern
          | none => false).map
        fun entry => joinWith options.separator entry.dropLast := by
  rcases options with ⟨entries, sep, pat, cfg⟩
  induction entries with
  | nil => rfl
  | cons e rest ih =>
    rcases hl : e.getLast? with _ | last
    · simpa [resolveFiles, List.filterMap_cons, List.filter_cons, hl] using ih
    · by_cases hm : ends_with last pat
      · simpa [resolveFiles, List.filterMap_cons, List.filter_cons, hl, hm] using ih
      · simpa [resolveFiles, List.filterMap_cons, List.filter_cons, hl, hm] using ih

/-- Claim C1 (counterexample): a completed bulk pass containing one job
whose file read fails ends with `files_processed = 0` while the
collector tallies `success + failure = 0 + 1`, so
`filesProcessed == successCount + errorCount` fails: `compile_file`
increments `files_processed` only on its success path, and failures
never reach the metrics update. -/
theorem c1_counterexample :
    ¬ ((bulkRun (fun _ => ⟨.err "read failed", .ok "", 0, none, 0⟩)
          (resolveFiles { entry := [["d", "f.ts"]], separator := '/',
                          pattern := ".ts", config := default })).1.files_processed =
        (bulkRun (fun _ => ⟨.err "read failed", .ok "", 0, none, 0⟩)
          (resolveFiles { entry := [["d", "f.ts"]], separator := '/',
                          pattern := ".ts", config := default })).2.2.1 +
        (bulkRun (fun _ => ⟨.err "read failed", .ok "", 0, none, 0⟩)
          (resolveFiles { entry := [["d", "f.ts"]], separator := '/',
                          pattern := ".ts", config := default })).2.2.2) := by
  decide

/-- Claim C1 (amended): for every completed bulk-pass run — any oracle
and any completion order of the resolved jobs — the metrics read at the
end satisfy `filesProcessed == successCount`: only the success tally is
reflected, because failures return before the metrics update and the
`errors` field is never incremented. -/
theorem c1_files_processed_eq_success_count (options : CompilerOptions)
    (oracle : String → JobOracle) (order : List String)
    (_horder : order.Perm (resolveFiles options)) :
    (bulkRun oracle order).1.files_processed = (bulkRun oracle order).2.2.1 := by
  show (runJobs default (order.map fun f => (f, oracle f))).1.files_processed =
    successCount (runJobs default (order.map fun f => (f, oracle f))).2
  rw [runJobs_fst, runJobs_snd, successCount_map, metrics_default_eq]
  simp

/-- Claim C1 (witness): the amended equality instantiated at the bulk
pass over the single entry `["a", "b", "x.ts"]` with an all-failing
oracle, run in dispatch order. -/
theorem c1_witness :
    (bulkRun (fun _ => ⟨.err "boom", .ok "", 0, none, 0⟩)
        (resolveFiles { entry := [["a", "b", "x.ts"]], separator := '/',
                        pattern := ".ts", config := default })).1.files_processed =
      (bulkRun (fun _ => ⟨.err "boom", .ok "", 0, none, 0⟩)
        (resolveFiles { entry := [["a", "b", "x.ts"]], separator := '/',
                        pattern := ".ts", config := default })).2.2.1 :=
  c1_files_processed_eq_success_count
    { entry := [["a", "b", "x.ts"]], separator := '/', pattern := ".ts",
      config := default }
    (fun _ => ⟨.err "boom", .ok "", 0, none, 0⟩) _ (List.Perm.refl _)

/-- Claim C5 (counterexample): two dispatched jobs, the first fully
successful and the second failing its read, end with
`files_processed = 1 ≠ 2 = N`: failure does not increment
`filesProcessed`, contradicting the claim (the collector still tallies
the failure, and the `errors` field stays 0 rather than 1). -/
theorem c5_counterexample :
    (bulkRun
        (fun f => if f = "a" then ⟨.ok "src", .ok "js", 3, none, 2⟩
                  else ⟨.err "unreadable", .ok "", 0, none, 0⟩)
        ["a", "b"]).2.2.2 = 1 ∧
    (bulkRun
        (fun f => if f = "a" then ⟨.ok "src", .ok "js", 3, none, 2⟩
                  else ⟨.err "unreadable", .ok "", 0, none, 0⟩)
        ["a", "b"]).1.errors = 0 ∧
    ¬ ((bulkRun
        (fun f => if f = "a" then ⟨.ok "src", .ok "js", 3, none, 2⟩
                  else ⟨.err "unreadable", .ok "", 0, none, 0⟩)
        ["a", "b"]).1.files_processed = 2) := by
  refine ⟨rfl, rfl, ?_⟩
  decide

/-- Claim C5 (amended): for N dispatched jobs with mixed outcomes, the
final metrics satisfy `filesProcessed` = number of successful jobs (a
failure does not increment it), `errors` = 0 (nothing in the code ever
increments that field; failures are visible only in the collector's
failure tally, which together with the success tally accounts for all N
jobs), and `totalDuration` = sum of the successful jobs' recorded
durations only. -/
theorem c5_final_metrics (options : CompilerOptions)
    (oracle : String → JobOracle) (order : List String)
    (_horder : order.Perm (resolveFiles options)) :
    (bulkRun oracle order).1.files_processed =
        countSucc (order.map fun f => (f, oracle f)) ∧
    (bulkRun oracle order).1.errors = 0 ∧
    (bulkRun oracle order).1.total_time =
        sumElapsed (order.map fun f => (f, oracle f)) ∧
    (bulkRun oracle order).2.2.1 + (bulkRun oracle order).2.2.2 = order.length := by
  refine ⟨?_, ?_, ?_, ?_⟩
  · show (runJobs default (order.map fun f => (f, oracle f))).1.files_processed = _
    rw [runJobs_fst, metrics_default_eq]
    simp
  · show (runJobs default (order.map fun f => (f, oracle f))).1.errors = 0
    rw [runJobs_fst, metrics_default_eq]
  · show (runJobs default (order.map fun f => (f, oracle f))).1.total_time = _
    rw [runJobs_fst, metrics_default_eq]
    simp
  · show successCount (runJobs default (order.map fun f => (f, oracle f))).2 +
        failureCount (runJobs default (order.map fun f => (f, oracle f))).2 = _
    rw [successCount_add_failureCount, runJobs_snd, List.length_map, List.length_map]

/-- Claim C5 (witness): the amended metrics equations instantiated at a
two-job run (one success of duration 3+2, one read failure) in dispatch
order. -/
theorem c5_witness :
    (bulkRun
        (fun f => if f = "a/x" then ⟨.ok "src", .ok "js", 3, none, 2⟩
                  else ⟨.err "unreadable", .ok "", 0, none, 0⟩)
        (resolveFiles { entry := [["a", "x", "x.ts"], ["b", "y", "y.ts"]],
                        separator := '/', pattern := ".ts",
                        config := default })).1.errors = 0 :=
  (c5_final_metrics
    { entry := [["a", "x", "x.ts"], ["b", "y", "y.ts"]], separator := '/',
      pattern := ".ts", config := default }
    (fun f => if f = "a/x" then ⟨.ok "src", .ok "js", 3, none, 2⟩
              else ⟨.err "unreadable", .ok "", 0, none, 0⟩)
    _ (List.Perm.refl _)).2.1

/-- Claim C6 (counterexample): a successful job whose transform takes 3
units and whose output write takes 5 units folds 3 + 5 = 8 units into
`total_time`, not the claimed transform-only 3: `elapsed` is taken only
after `fs::write` completes, so write I/O is inside the timed interval. -/
theorem c6_counterexample :
    (compile_file default "f.ts" ⟨.ok "src", .ok "js", 3, none, 5⟩).1.total_time = 8 ∧
    ¬ ((compile_file default "f.ts" ⟨.ok "src", .ok "js", 3, none, 5⟩).1.total_time = 3) := by
  refine ⟨rfl, ?_⟩
  decide

/-- Claim C6 (amended): for every successfully transformed file, the
duration folded into the metrics — together with the processed-count
increment, in one atomic update — is the wall-clock time from the start
of `compile_file` through the completed output write: transform time
plus write time, excluding only the file-read I/O (which happens before
`compile_file` is entered). -/
theorem c6_duration_includes_write (m : CompilerMetrics) (file buf : String)
    (o : JobOracle) (ht : o.transformResult = .ok buf)
    (hw : o.writeResult = none) :
    compile_file m file o =
      ({ files_processed := m.files_processed + 1,
         total_time := m.total_time + (o.transformTime + o.writeTime),
         errors := m.errors },
       .ok (with_extension file "js")) := by
  simp [compile_file, ht, hw]

/-- Claim C6 (witness): the amended update equation at a concrete
successful job with transform time 3 and write time 5. -/
theorem c6_witness :
    compile_file default "f.ts" ⟨.ok "src", .ok "js", 3, none, 5⟩ =
      ({ files_processed := 1, total_time := 8, errors := 0 },
       .ok (with_extension "f.ts" "js")) :=
  c6_duration_includes_write default "f.ts" "js"
    ⟨.ok "src", .ok "js", 3, none, 5⟩ rfl rfl

/-- Claim C4: every dispatched job sends exactly one result message, the
message carries that job's file identity, an error in the read, the
transform, or the write step is captured in it as a `Failure` with the
error's description, and the whole message list is a pointwise map over
the jobs — each job's message is a function of that job alone, so a
failing job can neither abort nor alter any sibling job's outcome. -/
theorem c4_failures_captured_and_isolated :
    ∀ (m : CompilerMetrics) (jobs : List (String × JobOracle)),
      ((runJobs m jobs).2 = jobs.map fun j => jobMsg j.1 j.2) ∧
      ((runJobs m jobs).2.length = jobs.length) ∧
      (∀ f o, (jobMsg f o).1 = f) ∧
      (∀ f o e, o.readResult = Outcome.err e → jobMsg f o = (f, Outcome.err e)) ∧
      (∀ f o e, o.readResult.isOk = true → o.transformResult = Outcome.err e →
        jobMsg f o = (f, Outcome.err e)) ∧
      (∀ f o e, o.readResult.isOk = true → o.transformResult.isOk = true →
        o.writeResult = some e → jobMsg f o = (f, Outcome.err e)) := by
  intro m jobs
  refine ⟨runJobs_snd m jobs, ?_, ?_, ?_, ?_, ?_⟩
  · rw [runJobs_snd, List.length_map]
  · intro f o
    rcases o with ⟨r, t, tt, w, wt⟩
    cases r <;> cases t <;> cases w <;> rfl
  · intro f o e hr
    simp [jobMsg, hr]
  · intro f o e hr ht
    rcases o with ⟨r, t, tt, w, wt⟩
    cases r <;> simp_all [jobMsg, Outcome.isOk]
  · intro f o e hr ht hw
    rcases o with ⟨r, t, tt, w, wt⟩
    cases r <;> cases t <;> simp_all [jobMsg, Outcome.isOk]

/-- Claim C4 (witness): a concrete read failure is captured as a failure
message carrying the file identity and the error description. -/
theorem c4_witness :
    jobMsg "lib/a.ts" ⟨.err "permission denied", .ok "", 0, none, 0⟩ =
      ("lib/a.ts", Outcome.err "permission denied") :=
  (c4_failures_captured_and_isolated default []).2.2.2.1 "lib/a.ts"
    ⟨.err "permission denied", .ok "", 0, none, 0⟩ "permission denied" rfl

/-- Claim C10 (counterexample): for the root path `"src"` — a
single-component entry that does not end with `".ts"` — the bulk pass
dispatches no job at all, rather than a job against the empty path: the
claim's bulk-pass half only materialises when the root itself matches
the pattern. -/
theorem c10_counterexample :
    mainBulkJobs "src" default = [] ∧ mainBulkJobs "src" default ≠ [""] := by
  constructor
  · rfl
  · decide

/-- Claim C10 (amended): a single-component entry whose component ends
with the pattern resolves to the empty-string path (the join of the
empty component list); every watch-triggered dispatch (single-component
entry for a file with extension `ts`) therefore dispatches its job
against the empty path rather than the named file, and the bulk pass
does so exactly when the root path itself ends with `".ts"`, dispatching
nothing otherwise. -/
theorem c10_single_component_resolves_empty :
    (∀ (c : String) (sep : Char) (pat : String) (cfg : CompilerConfig),
        ends_with c pat = true →
        resolveFiles { entry := [[c]], separator := sep, pattern := pat,
                       config := cfg } = [""]) ∧
    (∀ (p : String) (cfg : CompilerConfig), rustExtension p = some "ts" →
        watchDispatchJobs p cfg = [""]) ∧
    (∀ (root : String) (cfg : CompilerConfig), ends_with root ".ts" = true →
        mainBulkJobs root cfg = [""]) ∧
    (∀ (root : String) (cfg : CompilerConfig), ends_with root ".ts" = false →
        mainBulkJobs root cfg = []) := by
  refine ⟨?_, ?_, ?_, ?_⟩
  · intro c sep pat cfg h
    rw [resolveFiles_single, h]
    rfl
  · intro p cfg h
    show resolveFiles _ = [""]
    rw [singleEntryOptions, resolveFiles_single, ends_with_of_rustExtension_ts p h]
    rfl
  · intro root cfg h
    show resolveFiles _ = [""]
    rw [singleEntryOptions, resolveFiles_single, h]
    rfl
  · intro root cfg h
    show resolveFiles _ = []
    rw [singleEntryOptions, resolveFiles_single, h]
    rfl

/-- Claim C10 (witness): instantiations at the changed file
`"a/b/file.ts"` (watch dispatch resolves to the empty path) and at the
roots `"root.ts"` (bulk dispatches the empty path) and `"project"` (bulk
dispatches nothing). -/
theorem c10_witness :
    watchDispatchJobs "a/b/file.ts" default = [""] ∧
    mainBulkJobs "root.ts" default = [""] ∧
    mainBulkJobs "project" default = [] :=
  ⟨c10_single_component_resolves_empty.2.1 "a/b/file.ts" default rfl,
   c10_single_component_resolves_empty.2.2.1 "root.ts" default rfl,
   c10_single_component_resolves_empty.2.2.2 "project" default rfl⟩

/-- `notify::event::DataChange`: the payload of a data modification,
matched only by wildcard in the source. -/
inductive DataChange where
  | any
  | size
  | content
  | other
deriving DecidableEq, Repr

/-- `notify::event::ModifyKind` (payloads of the metadata and rename
variants are never inspected by the source and are omitted). -/
inductive ModifyKind where
  | any
  | data (c : DataChange)
  | metadata
  | name
  | other
deriving DecidableEq, Repr

/-- `notify::EventKind` (payloads of the access, create and remove
variants are never inspected by the source and are omitted). -/
inductive EventKind where
  | any
  | access
  | create
  | modify (k : ModifyKind)
  | remove
  | other
deriving DecidableEq, Repr

/-- A raw change notification: `notify::Event { kind, paths, .. }` (the
attrs field is ignored by the source's pattern). -/
structure NotifyEvent where
  kind : EventKind
  paths : List String
deriving DecidableEq, Repr

/-- The filter of the watch loop, `src/Source/Fn/SWC/Watch.rs` lines
17-43: an event is accepted only when it matches
`EventKind::Modify(ModifyKind::Data(_))`; among its paths, exactly those
with `path.extension() == Some("ts")` each get a job dispatched (a
`Compile::Fn` spawn over the single-entry options for that path).  All
other event kinds fall through the `if let` with no dispatch. -/
def watchTriggers (e : NotifyEvent) : List String :=
  match e.kind with
  | .modify (.data _) => e.paths.filter fun p => rustExtension p == some "ts"
  | _ => []

/-- Claim C8: a job is dispatched for a change notification if and only
if the event kind is a data modification and the affected file's
extension equals the source extension `ts`; creation, deletion,
metadata-only change and rename events never trigger a job. -/
theorem c8_watch_dispatch_iff :
    (∀ (e : NotifyEvent) (p : String),
        p ∈ watchTriggers e ↔
          ((∃ c, e.kind = .modify (.data c)) ∧ p ∈ e.paths ∧
            rustExtension p = some "ts")) ∧
    (∀ (e : NotifyEvent), e.kind = .create → watchTriggers e = []) ∧
    (∀ (e : NotifyEvent), e.kind = .remove → watchTriggers e = []) ∧
    (∀ (e : NotifyEvent), e.kind = .modify .metadata → watchTriggers e = []) ∧
    (∀ (e : NotifyEvent), e.kind = .modify .name → watchTriggers e = []) := by
  refine ⟨?_, ?_, ?_, ?_, ?_⟩
  · intro e p
    rcases e with ⟨kind, paths⟩
    rcases kind with _ | _ | _ | (_ | c | _ | _ | _) | _ | _ <;>
      simp [watchTriggers, List.mem_filter]
  · intro e h
    rcases e with ⟨kind, paths⟩
    cases h
    rfl
  · intro e h
    rcases e with ⟨kind, paths⟩
    cases h
    rfl
  · intro e h
    rcases e with ⟨kind, paths⟩
    cases h
    rfl
  · intro e h
    rcases e with ⟨kind, paths⟩
    cases h
    rfl

/-- Claim C8 (witness): a create event on a `.ts` file dispatches
nothing; a data-modification event on the same file dispatches it. -/
theorem c8_witness :
    watchTriggers ⟨.create, ["a.ts"]⟩ = [] ∧
    "a.ts" ∈ watchTriggers ⟨.modify (.data .content), ["a.ts"]⟩ :=
  ⟨c8_watch_dispatch_iff.2.1 ⟨.create, ["a.ts"]⟩ rfl,
   (c8_watch_dispatch_iff.1 ⟨.modify (.data .content), ["a.ts"]⟩ "a.ts").mpr
     ⟨⟨.content, rfl⟩, by simp, rfl⟩⟩

/-- State of the dispatcher/collector channel machinery of `Compile::Fn`
(`src/Source/Fn/SWC/Watch/Compile.rs` lines 30-95): `pending` holds the
spawned tasks not yet completed (each owns one `tx` clone and will send
exactly one message when it completes); `mainTx` is the original sender,
held by the waiter task that awaits `queue.collect` and drops `tx`
afterwards; `buffer` is the unbounded channel's queue; `received` is
what the collector's `while let Some` loop has consumed; `done` records
that the loop has exited. -/
structure ChanState (α : Type) where
  pending : List α
  mainTx : Bool
  buffer : List α
  received : List α
  done : Bool

/-- Initial state: all tasks spawned and no message yet, the original
sender alive, collector running. -/
def initChan {α : Type} (msgs : List α) : ChanState α :=
  ⟨msgs, true, [], [], false⟩

/-- Small-step semantics of the channel machinery.  `runTask` completes
any pending task (completion order is arbitrary), enqueueing its message
and dropping its sender clone.  `dropMain` is the waiter task of lines
76-79: `queue.collect` finishes only once every spawned task has
completed, and only then is `tx` dropped.  `recv` is one iteration of
the collector's `while let Some` loop.  `finish` is the loop's exit:
`recv` returns `None` exactly when the buffer is empty and every sender
(task clones and the original) is gone — there is no count-based or
timeout-based exit in the loop. -/
inductive ChanStep {α : Type} : ChanState α → ChanState α → Prop where
  | runTask (s : ChanState α) (l₁ l₂ : List α) (m : α)
      (h : s.pending = l₁ ++ m :: l₂) :
      ChanStep s { s with pending := l₁ ++ l₂, buffer := s.buffer ++ [m] }
  | dropMain (s : ChanState α) (hp : s.pending = []) (hm : s.mainTx = true) :
      ChanStep s { s with mainTx := false }
  | recv (s : ChanState α) (m : α) (rest : List α) (hd : s.done = false)
      (hb : s.buffer = m :: rest) :
      ChanStep s { s with buffer := rest, received := s.received ++ [m] }
  | finish (s : ChanState α) (hd : s.done = false) (hb : s.buffer = [])
      (hp : s.pending = []) (hm : s.mainTx = false) :
      ChanStep s { s with done := true }

/-- Reachability from the initial state for a given message multiset. -/
def ChanReachable {α : Type} (msgs : List α) (s : ChanState α) : Prop :=
  Relation.ReflTransGen ChanStep (initChan msgs) s

/-- Invariant of the channel machinery: the main sender is only ever
dropped once no task is pending; the collector only exits once the
buffer is drained and every sender is gone; no message is lost or
duplicated. -/
def chanInv {α : Type} (msgs : List α) (s : ChanState α) : Prop :=
  (s.mainTx = false → s.pending = []) ∧
  (s.done = true → s.buffer = [] ∧ s.pending = [] ∧ s.mainTx = false) ∧
  (s.received ++ s.buffer ++ s.pending).Perm msgs

lemma chanInv_init {α : Type} (msgs : List α) : chanInv msgs (initChan msgs) :=
  ⟨by simp [initChan], by simp [initChan], by simp [initChan]⟩

lemma chanInv_step {α : Type} {msgs : List α} {s s' : ChanState α}
    (hinv : chanInv msgs s) (hstep : ChanStep s s') : chanInv msgs s' := by
  obtain ⟨h1, h2, h3⟩ := hinv
  cases hstep with
  | runTask l₁ l₂ m h =>
    refine ⟨?_, ?_, ?_⟩
    · intro hm
      have hcontra := (h1 hm).symm.trans h
      simp at hcontra
    · intro hd
      have hcontra := ((h2 hd).2.1).symm.trans h
      simp at hcontra
    · show (s.received ++ (s.buffer ++ [m]) ++ (l₁ ++ l₂)).Perm msgs
      have e1 : s.received ++ (s.buffer ++ [m]) ++ (l₁ ++ l₂) =
          s.received ++ s.buffer ++ (m :: (l₁ ++ l₂)) := by simp
      rw [e1]
      have h3' : (s.received ++ s.buffer ++ (l₁ ++ m :: l₂)).Perm msgs := by
        rw [← h]
        exact h3
      exact List.Perm.trans (List.Perm.append_left _ List.perm_middle.symm) h3'
  | dropMain hp hm =>
    exact ⟨fun _ => hp, fun hd => absurd ((h2 hd).2.2) (by simp [hm]), h3⟩
  | recv m rest hd hb =>
    refine ⟨h1, ?_, ?_⟩
    · intro hdone
      have hdone' : s.done = true := hdone
      rw [hd] at hdone'
      simp at hdone'
    · show ((s.received ++ [m]) ++ rest ++ s.pending).Perm msgs
      have heq : (s.received ++ [m]) ++ rest ++ s.pending =
          s.received ++ (m :: rest) ++ s.pending := by simp
      rw [heq, ← hb]
      exact h3
  | finish hd hb hp hm =>
    exact ⟨fun _ => hp, fun _ => ⟨hb, hp, hm⟩, h3⟩

lemma chanInv_reachable {α : Type} {msgs : List α} {s : ChanState α}
    (h : ChanReachable msgs s) : chanInv msgs s := by
  induction h with
  | refl => exact chanInv_init msgs
  | tail _ hstep ih => exact chanInv_step ih hstep

/-- Claim C9: in every reachable state of the dispatcher/collector
machinery, the original sender handle is dropped only once no spawned
per-file task is still pending; the collector loop, whose only exit is
the channel yielding no more values, can exit exactly when the buffer is
drained and every sender is gone; and when it has exited, it has
received precisely the messages of all spawned tasks (none dropped by a
count or timeout cut-off), in some completion order. -/
theorem c9_channel_termination {α : Type} (msgs : List α) (s : ChanState α)
    (hreach : ChanReachable msgs s) :
    (s.mainTx = false → s.pending = []) ∧
    (s.done = false → s.buffer = [] → s.pending = [] → s.mainTx = false →
      ChanStep s { s with done := true }) ∧
    (s.done = true →
      s.buffer = [] ∧ s.pending = [] ∧ s.mainTx = false ∧ s.received.Perm msgs) := by
  obtain ⟨h1, h2, h3⟩ := chanInv_reachable hreach
  refine ⟨h1, fun hd hb hp hm => ChanStep.finish s hd hb hp hm, fun hd => ?_⟩
  obtain ⟨hb, hp, hm⟩ := h2 hd
  refine ⟨hb, hp, hm, ?_⟩
  have := h3
  rw [hb, hp] at this
  simpa using this

/-- Claim C9 (witness): a complete concrete run — one task sends its
message, the waiter drops the main sender, the collector receives the
message and exits — reaches the final state, where the theorem yields
that everything was received. -/
theorem c9_witness :
    (⟨[], false, [], [("a/b", Outcome.ok "a/b.js")], true⟩ :
        ChanState (String × Outcome)).received.Perm
      [("a/b", Outcome.ok "a/b.js")] ∧
    (⟨[], false, [], [("a/b", Outcome.ok "a/b.js")], true⟩ :
        ChanState (String × Outcome)).pending = [] := by
  have st1 : ChanStep (initChan [("a/b", Outcome.ok "a/b.js")])
      (⟨[], true, [("a/b", Outcome.ok "a/b.js")], [], false⟩ :
        ChanState (String × Outcome)) :=
    ChanStep.runTask _ [] [] ("a/b", Outcome.ok "a/b.js") rfl
  have st2 : ChanStep
      (⟨[], true, [("a/b", Outcome.ok "a/b.js")], [], false⟩ :
        ChanState (String × Outcome))
      (⟨[], false, [("a/b", Outcome.ok "a/b.js")], [], false⟩ :
        ChanState (String × Outcome)) :=
    ChanStep.dropMain _ rfl rfl
  have st3 : ChanStep
      (⟨[], false, [("a/b", Outcome.ok "a/b.js")], [], false⟩ :
        ChanState (String × Outcome))
      (⟨[], false, [], [("a/b", Outcome.ok "a/b.js")], false⟩ :
        ChanState (String × Outcome)) :=
    ChanStep.recv _ ("a/b", Outcome.ok "a/b.js") [] rfl rfl
  have st4 : ChanStep
      (⟨[], false, [], [("a/b", Outcome.ok "a/b.js")], false⟩ :
        ChanState (String × Outcome))
      (⟨[], false, [], [("a/b", Outcome.ok "a/b.js")], true⟩ :
        ChanState (String × Outcome)) :=
    ChanStep.finish _ rfl rfl rfl rfl
  have hreach : ChanReachable [("a/b", Outcome.ok "a/b.js")]
      (⟨[], false, [], [("a/b", Outcome.ok "a/b.js")], true⟩ :
        ChanState (String × Outcome)) :=
    ((((Relation.ReflTransGen.refl).tail st1).tail st2).tail st3).tail st4
  have h := c9_channel_termination _ _ hreach
  exact ⟨(h.2.2 rfl).2.2.2, (h.2.2 rfl).2.1⟩

/-- Observable phases of `main`, `src/Source/Fn/SWC.rs` lines 136-171. -/
inductive MainEvent where
  | bulkResolve (jobs : List String)
  | jobOutcome (msg : String × Outcome)
  | bulkSummary (processed totalTime succ fail : Nat)
  | watchStart
deriving DecidableEq, Repr

/-- The phase trace of the awaited `compile_typescript` call
(`Compile::Fn`): resolve the single one-component root entry, run every
job (effects from the oracle, outcomes in dispatch order), then log the
summary from the final metrics and the collector tallies. -/
def bulkTrace (root : String) (cfg : CompilerConfig)
    (oracle : String → JobOracle) : List MainEvent :=
  let jobs := resolveFiles (singleEntryOptions root cfg)
  let r := runJobs default (jobs.map fun f => (f, oracle f))
  MainEvent.bulkResolve jobs ::
    (r.2.map MainEvent.jobOutcome ++
      [MainEvent.bulkSummary r.1.files_processed r.1.total_time
        (successCount r.2) (failureCount r.2)])

/-- The ordered phase trace of `main` (`src/Source/Fn/SWC.rs` lines
136-171): build `CompilerOptions` whose entry list is the single
one-component entry `[[rootPath]]` (lines 154-159 — there is no
directory walk anywhere in the source); await `compile_typescript` to
full completion (line 163); only after that `.await?` returns is
`Watch::Fn` entered (line 168). -/
def mainTrace (root : String) (cfg : CompilerConfig)
    (oracle : String → JobOracle) : List MainEvent :=
  bulkTrace root cfg oracle ++ [MainEvent.watchStart]

/-- A path lies strictly under a root directory: `root ++ "/"` begins
it. -/
def isUnder (root f : String) : Bool :=
  (root ++ "/").data.isPrefixOf f.data

/-- Modelled from the spec: the job list that §4.7 step (a) claims the
run produces — "resolve all matching files under `rootPath` via a
directory-walk-producing Entries".  No directory walk exists anywhere in
the source (`main` never reads the directory; it builds the single entry
`[[rootPath]]`), so the walk is rendered from the spec's words over an
abstract listing `fsFiles` of the files on disk: the files under the
root whose names end with the target suffix. -/
def specWalkJobs (fsFiles : List String) (root suffix : String) : List String :=
  fsFiles.filter fun f => isUnder root f && ends_with f suffix

/-- Claim C7 (counterexample): for a filesystem holding the matching
file `"r/x.ts"` under root `"r"`, the spec's directory walk yields
`["r/x.ts"]`, but `main`'s bulk pass resolves no job at all — its only
entry is the single-component root path, which fails the `".ts"` suffix
filter — so the claimed walk-resolved job list never appears in the run. -/
theorem c7_counterexample :
    specWalkJobs ["r/x.ts"] "r" ".ts" = ["r/x.ts"] ∧
    (mainTrace "r" default (fun _ => ⟨.ok "", .ok "", 0, none, 0⟩)).head? =
      some (MainEvent.bulkResolve []) ∧
    MainEvent.bulkResolve (specWalkJobs ["r/x.ts"] "r" ".ts") ∉
      mainTrace "r" default (fun _ => ⟨.ok "", .ok "", 0, none, 0⟩) := by
  refine ⟨rfl, rfl, ?_⟩
  decide

/-- Claim C7 (amended): a run over a root path first resolves its job
list from the single one-component entry containing the root path
itself (no directory walk), then dispatches and fully awaits the bulk
pass and reports its summary, and only then — as the very last phase,
occurring nowhere earlier in the trace — enters the watch loop: every
job outcome and the summary report precede `watchStart`. -/
theorem c7_bulk_then_watch (root : String) (cfg : CompilerConfig)
    (oracle : String → JobOracle) :
    (mainTrace root cfg oracle).head? =
      some (MainEvent.bulkResolve (resolveFiles (singleEntryOptions root cfg))) ∧
    (mainTrace root cfg oracle).getLast? = some MainEvent.watchStart ∧
    MainEvent.watchStart ∉ (mainTrace root cfg oracle).dropLast ∧
    (mainTrace root cfg oracle).dropLast.getLast? =
      some (MainEvent.bulkSummary
        (bulkRun oracle (resolveFiles (singleEntryOptions root cfg))).1.files_processed
        (bulkRun oracle (resolveFiles (singleEntryOptions root cfg))).1.total_time
        (bulkRun oracle (resolveFiles (singleEntryOptions root cfg))).2.2.1
        (bulkRun oracle (resolveFiles (singleEntryOptions root cfg))).2.2.2) := by
  refine ⟨rfl, ?_, ?_, ?_⟩
  · show (bulkTrace root cfg oracle ++ [MainEvent.watchStart]).getLast? = _
    exact List.getLast?_concat _
  · show MainEvent.watchStart ∉
      (bulkTrace root cfg oracle ++ [MainEvent.watchStart]).dropLast
    rw [List.dropLast_concat]
    simp [bulkTrace, List.mem_append, List.mem_map]
  · show (bulkTrace root cfg oracle ++ [MainEvent.watchStart]).dropLast.getLast? = _
    rw [List.dropLast_concat]
    have hshape : bulkTrace root cfg oracle =
        (MainEvent.bulkResolve (resolveFiles (singleEntryOptions root cfg)) ::
          (runJobs default ((resolveFiles (singleEntryOptions root cfg)).map
            fun f => (f, oracle f))).2.map MainEvent.jobOutcome) ++
        [MainEvent.bulkSummary
          (bulkRun oracle (resolveFiles (singleEntryOptions root cfg))).1.files_processed
          (bulkRun oracle (resolveFiles (singleEntryOptions root cfg))).1.total_time
          (bulkRun oracle (resolveFiles (singleEntryOptions root cfg))).2.2.1
          (bulkRun oracle (resolveFiles (singleEntryOptions root cfg))).2.2.2] := by
      simp [bulkTrace, bulkRun]
    rw [hshape, List.getLast?_concat]

end Rest
